import Mathlib

/-!
Verification of the UserModel list-synchronization engine (usermodel.cpp).

The model below is a shallow embedding of the UserModel class: the ordered
QVector of UserInfo records becomes a List, the QHash from uid to row an
association list, asynchronous D-Bus command issuance a list of emitted
commands, and Qt signal emission a list of emitted signals.  The UserInfo
value type lives in userinfo.cpp, which is not part of this snapshot; its
operations are modelled from the specification and marked as such.
-/

/-- An operating-system account database: maps a uid to the account name when
the uid exists.  Modelled from the spec: it stands for the passwd lookups the
UserInfo value type performs (userinfo.cpp is not in this snapshot). -/
abbrev OsDb := Nat → Option String

/-- One account record.  Fields not touched by any verified property
(username, type, current flag) are omitted from the embedding. -/
structure UserInfo where
  uid : Nat
  name : String
  valid : Bool
  deriving Repr, DecidableEq

/-- Modelled from the spec: constructing a UserInfo from a uid queries the OS
account database; the record is valid exactly when the lookup succeeds. -/
def UserInfo.ofUid (os : OsDb) (uid : Nat) : UserInfo :=
  match os uid with
  | some n => { uid := uid, name := n, valid := true }
  | none => { uid := uid, name := "", valid := false }

/-- Modelled from the spec: the invalid placeholder record, uid unassigned. -/
def UserInfo.placeholderUser : UserInfo :=
  { uid := 0, name := "", valid := false }

/-- Modelled from the spec: reset restores the mutable name field from the
authoritative OS identity lookup; for the invalid placeholder it clears the
transient name back to empty. -/
def UserInfo.reset (os : OsDb) (u : UserInfo) : UserInfo :=
  if u.valid then { u with name := (os u.uid).getD u.name }
  else { u with name := "" }

/-- UserInfo::setName: updates the name field only. -/
def UserInfo.setName (u : UserInfo) (n : String) : UserInfo :=
  { u with name := n }

/-- The QHash from uid to row, modelled as an association list with the most
recent insertion first; lookup takes the first matching key. -/
abbrev UidMap := List (Nat × Nat)

/-- QHash lookup as an Option. -/
def hmLookup (m : UidMap) (k : Nat) : Option Nat :=
  (m.find? (fun p => p.1 == k)).map (fun p => p.2)

/-- QHash::contains. -/
def hmContains (m : UidMap) (k : Nat) : Bool :=
  (hmLookup m k).isSome

/-- QHash::value with the default value 0 for a missing key. -/
def hmValue (m : UidMap) (k : Nat) : Nat :=
  (hmLookup m k).getD 0

/-- QHash::insert: replaces any existing entry for the key. -/
def hmInsert (m : UidMap) (k v : Nat) : UidMap :=
  (k, v) :: m.filter (fun p => p.1 != k)

/-- QHash::remove. -/
def hmRemove (m : UidMap) (k : Nat) : UidMap :=
  m.filter (fun p => p.1 != k)

/-- The re-indexing loop of UserModel::onUserRemoved: decrement every stored
row value greater than the removed row by one. -/
def hmShiftDown (m : UidMap) (row : Nat) : UidMap :=
  m.map (fun p => if row < p.2 then (p.1, p.2 - 1) else p)

/-- The mutable state of a UserModel: the ordered row sequence m_users and
the uid-to-row index m_uidsToRows. -/
structure ModelState where
  users : List UserInfo
  uidsToRows : UidMap
  deriving Repr, DecidableEq

/-- The item roles of UserModel (usermodel.h enum); unknown covers any other
integer role value reaching the default branch of the switch. -/
inductive Role where
  | display
  | username
  | name
  | userType
  | uid
  | current
  | placeholderRole
  | unknown (n : Nat)
  deriving Repr, DecidableEq

/-- The asynchronous D-Bus commands UserModel issues to user-managerd. -/
inductive RemoteCommand where
  | addUser (name : String)
  | modifyUser (uid : Nat) (name : String)
  | removeUser (uid : Nat)
  | setCurrentUser (uid : Nat)
  | addToGroups (uid : Nat) (groups : List String)
  | removeFromGroups (uid : Nat) (groups : List String)
  deriving Repr, DecidableEq

/-- QDBusError::ErrorType.  Only the distinction between Other and the rest
matters to getErrorType; the remaining transport-level constructors are kept
so that pass-through can be stated. -/
inductive QDBusErrorType where
  | NoError
  | Other
  | Failed
  | NoMemory
  | ServiceUnknown
  | NoReply
  | BadAddress
  | NotSupported
  | LimitsExceeded
  | AccessDenied
  | NoServer
  | Timeout
  | NoNetwork
  | AddressInUse
  | Disconnected
  | InvalidArgs
  | UnknownMethod
  | TimedOut
  | InvalidSignature
  | UnknownInterface
  | UnknownObject
  | UnknownProperty
  | PropertyReadOnly
  | InternalError
  | InvalidService
  | InvalidObjectPath
  | InvalidInterface
  | InvalidMember
  deriving Repr, DecidableEq

/-- The UserModel error enumeration (usermodel.h). -/
inductive UserModelError where
  | Failure
  | OtherError
  | Busy
  | HomeCreateFailed
  | HomeRemoveFailed
  | GroupCreateFailed
  | UserAddFailed
  | UserModifyFailed
  | UserRemoveFailed
  | GetUidFailed
  | UserNotFound
  | AddToGroupFailed
  | RemoveFromGroupFailed
  deriving Repr, DecidableEq

/-- A QDBusError as seen by getErrorType: its transport type and its error
name.  The Sailfish error-name string constants live in a header outside this
snapshot; they are modelled as distinct literal strings. -/
structure DBusError where
  type : QDBusErrorType
  name : String
  deriving Repr, DecidableEq

/-- The result of getErrorType: either a transport-level error code passed
through unchanged, or a value of the UserModel error taxonomy. -/
inductive ErrorCode where
  | transport (t : QDBusErrorType)
  | model (e : UserModelError)
  deriving Repr, DecidableEq

/-- The errorTypeMap table of usermodel.cpp, mapping daemon error-name
identifiers to taxonomy values. -/
def errorTypeMap : List (String × UserModelError) :=
  [ ("SailfishUserManagerErrorBusy", UserModelError.Busy),
    ("SailfishUserManagerErrorHomeCreateFailed", UserModelError.HomeCreateFailed),
    ("SailfishUserManagerErrorHomeRemoveFailed", UserModelError.HomeRemoveFailed),
    ("SailfishUserManagerErrorGroupCreateFailed", UserModelError.GroupCreateFailed),
    ("SailfishUserManagerErrorUserAddFailed", UserModelError.UserAddFailed),
    ("SailfishUserManagerErrorUserModifyFailed", UserModelError.UserModifyFailed),
    ("SailfishUserManagerErrorUserRemoveFailed", UserModelError.UserRemoveFailed),
    ("SailfishUserManagerErrorGetUidFailed", UserModelError.GetUidFailed),
    ("SailfishUserManagerErrorUserNotFound", UserModelError.UserNotFound),
    ("SailfishUserManagerErrorAddToGroupFailed", UserModelError.AddToGroupFailed),
    ("SailfishUserManagerErrorRemoveFromGroupFailed", UserModelError.RemoveFromGroupFailed) ]

/-- getErrorType of usermodel.cpp: errors whose transport type is not Other
pass through as their native transport code; Other errors are looked up by
name in errorTypeMap with OtherError as the fallback. -/
def getErrorType (e : DBusError) : ErrorCode :=
  if e.type ≠ QDBusErrorType.Other then ErrorCode.transport e.type
  else
    ErrorCode.model
      (((errorTypeMap.find? (fun p => p.1 == e.name)).map (fun p => p.2)).getD
        UserModelError.OtherError)

/-- The observable Qt signals of UserModel that the verified properties
mention.  Structural list-observer notifications are included; rows carried
by failure signals are raw C++ ints, hence Int. -/
inductive UMSignal where
  | rowsInserted (row : Nat)
  | rowsRemoved (row : Nat)
  | placeholderChanged
  | dataChanged (row : Nat) (roles : List Role)
  | userAddFailed (err : ErrorCode)
  | userModifyFailed (row : Int) (err : ErrorCode)
  | userRemoveFailed (row : Int) (err : ErrorCode)
  | userGroupsChanged (row : Int)
  deriving Repr, DecidableEq

/-- The outcome of one handler invocation: the successor state, the remote
commands issued, and the signals emitted, in order. -/
structure Step where
  state : ModelState
  cmds : List RemoteCommand
  sigs : List UMSignal
  deriving Repr, DecidableEq

/-- The outcome of UserModel::setData, which additionally returns a Bool. -/
structure SetDataResult where
  ret : Bool
  state : ModelState
  cmds : List RemoteCommand
  sigs : List UMSignal
  deriving Repr, DecidableEq

/-- UserModel::placeholder: the placeholder is always last and the only item
that can be invalid, so the model has a placeholder exactly when it is
non-empty and its last record is invalid. -/
def UserModel.placeholder (s : ModelState) : Bool :=
  match s.users.getLast? with
  | none => false
  | some u => !u.valid

/-- UserModel::setPlaceholder. -/
def UserModel.setPlaceholder (s : ModelState) (value : Bool) : Step :=
  if UserModel.placeholder s = value then ⟨s, [], []⟩
  else if value then
    ⟨{ s with users := s.users ++ [UserInfo.placeholderUser] }, [],
      [UMSignal.rowsInserted s.users.length, UMSignal.placeholderChanged]⟩
  else
    ⟨{ s with users := s.users.dropLast }, [],
      [UMSignal.rowsRemoved (s.users.length - 1), UMSignal.placeholderChanged]⟩

/-- UserModel::setData.  The QVariant value is modelled as a String: the name
role converts it with toString and no other role reads it. -/
def UserModel.setData (s : ModelState) (row col : Int) (value : String)
    (role : Role) : SetDataResult :=
  if row < 0 ∨ (s.users.length : Int) ≤ row ∨ col ≠ 0 then ⟨false, s, [], []⟩
  else
    match s.users[row.toNat]? with
    | none => ⟨false, s, [], []⟩
    | some user =>
      match role with
      | Role.name =>
        if value = "" ∨ value = user.name then ⟨false, s, [], []⟩
        else
          ⟨true,
            { s with users := s.users.set row.toNat (user.setName value) },
            if user.valid then [RemoteCommand.modifyUser user.uid value] else [],
            [UMSignal.dataChanged row.toNat [Role.name]]⟩
      | _ => ⟨false, s, [], []⟩

/-- UserModel::createUser: requires a placeholder with a non-empty name, then
issues addUser(name); the local state is not changed by the request. -/
def UserModel.createUser (s : ModelState) : Step :=
  if !UserModel.placeholder s then ⟨s, [], []⟩
  else
    match s.users.getLast? with
    | none => ⟨s, [], []⟩
    | some user =>
      if user.name = "" then ⟨s, [], []⟩
      else ⟨s, [RemoteCommand.addUser user.name], []⟩

/-- UserModel::removeUser: issues removeUser(uid) for a valid in-range row;
the local state is never changed by the request itself. -/
def UserModel.removeUser (s : ModelState) (row : Int) : Step :=
  if row < 0 ∨ (s.users.length : Int) ≤ row then ⟨s, [], []⟩
  else
    match s.users[row.toNat]? with
    | none => ⟨s, [], []⟩
    | some user =>
      if !user.valid then ⟨s, [], []⟩
      else ⟨s, [RemoteCommand.removeUser user.uid], []⟩

/-- UserModel::reset(row): restores the row from the OS identity lookup and
emits a dataChanged notification with an empty role list. -/
def UserModel.reset (os : OsDb) (s : ModelState) (row : Int) : Step :=
  if row < 0 ∨ (s.users.length : Int) ≤ row then ⟨s, [], []⟩
  else
    match s.users[row.toNat]? with
    | none => ⟨s, [], []⟩
    | some u =>
      ⟨{ s with users := s.users.set row.toNat (UserInfo.reset os u) }, [],
        [UMSignal.dataChanged row.toNat []]⟩

/-- UserModel::onUserAdded: ignores an already-tracked uid; otherwise builds
a UserInfo from the uid and, when valid, inserts it at the end but before a
trailing placeholder, recording its row in the index. -/
def UserModel.onUserAdded (os : OsDb) (s : ModelState) (uid : Nat) : Step :=
  if hmContains s.uidsToRows uid then ⟨s, [], []⟩
  else if (UserInfo.ofUid os uid).valid then
    ⟨{ users := s.users.insertIdx
         (if UserModel.placeholder s then s.users.length - 1 else s.users.length)
         (UserInfo.ofUid os uid),
       uidsToRows := hmInsert s.uidsToRows uid
         (if UserModel.placeholder s then s.users.length - 1 else s.users.length) },
      [],
      [UMSignal.rowsInserted
        (if UserModel.placeholder s then s.users.length - 1 else s.users.length)]⟩
  else ⟨s, [], []⟩

/-- UserModel::onUserModified: updates the name of a tracked row when it
differs, emitting a name-only dataChanged.  The C++ indexes m_users[row]
unconditionally; an index value out of range is undefined behaviour there
and modelled as a no-op. -/
def UserModel.onUserModified (s : ModelState) (uid : Nat) (newName : String) :
    Step :=
  if hmContains s.uidsToRows uid then
    match s.users[hmValue s.uidsToRows uid]? with
    | none => ⟨s, [], []⟩
    | some user =>
      if user.name ≠ newName then
        ⟨{ s with
            users := s.users.set (hmValue s.uidsToRows uid)
              (user.setName newName) }, [],
          [UMSignal.dataChanged (hmValue s.uidsToRows uid) [Role.name]]⟩
      else ⟨s, [], []⟩
  else ⟨s, [], []⟩

/-- UserModel::onUserRemoved: removes the tracked row and its index entry and
decrements every remaining index value greater than the removed row. -/
def UserModel.onUserRemoved (s : ModelState) (uid : Nat) : Step :=
  if hmContains s.uidsToRows uid then
    ⟨{ users := s.users.eraseIdx (hmValue s.uidsToRows uid),
       uidsToRows := hmShiftDown (hmRemove s.uidsToRows uid)
         (hmValue s.uidsToRows uid) }, [],
      [UMSignal.rowsRemoved (hmValue s.uidsToRows uid)]⟩
  else ⟨s, [], []⟩

/-- UserModel::userAddFinished.  On error it only emits userAddFailed with
the classified error.  On success with uid, unless onUserAdded already
tracked the uid, it inserts UserInfo(uid) at row count-1 and records that
row; then it resets the last row (the placeholder).  The C++ computes
count-1 as a signed int and Qt asserts when count is 0; the embedding uses
truncated subtraction, inserting at 0 in that unreachable corner. -/
def UserModel.userAddFinished (os : OsDb) (s : ModelState)
    (reply : Except DBusError Nat) : Step :=
  match reply with
  | Except.error e => ⟨s, [], [UMSignal.userAddFailed (getErrorType e)]⟩
  | Except.ok uid =>
    if hmContains s.uidsToRows uid then
      ⟨(UserModel.reset os s ((s.users.length : Int) - 1)).state, [],
        (UserModel.reset os s ((s.users.length : Int) - 1)).sigs⟩
    else
      ⟨(UserModel.reset os
          ⟨s.users.insertIdx (s.users.length - 1) (UserInfo.ofUid os uid),
           hmInsert s.uidsToRows uid (s.users.length - 1)⟩
          (((s.users.insertIdx (s.users.length - 1)
              (UserInfo.ofUid os uid)).length : Int) - 1)).state, [],
        UMSignal.rowsInserted (s.users.length - 1) ::
          (UserModel.reset os
            ⟨s.users.insertIdx (s.users.length - 1) (UserInfo.ofUid os uid),
             hmInsert s.uidsToRows uid (s.users.length - 1)⟩
            (((s.users.insertIdx (s.users.length - 1)
                (UserInfo.ofUid os uid)).length : Int) - 1)).sigs⟩

/-- UserModel::userModifyFinished: on error, emit userModifyFailed with the
classified error for the captured row and reset that row; on success do
nothing. -/
def UserModel.userModifyFinished (os : OsDb) (s : ModelState)
    (reply : Option DBusError) (row : Int) : Step :=
  match reply with
  | some e =>
    let r := UserModel.reset os s row
    ⟨r.state, [], UMSignal.userModifyFailed row (getErrorType e) :: r.sigs⟩
  | none => ⟨s, [], []⟩

/-- UserModel::userRemoveFinished: on error, emit userRemoveFailed with the
classified error for the captured row; the state is never changed. -/
def UserModel.userRemoveFinished (s : ModelState) (reply : Option DBusError)
    (row : Int) : Step :=
  match reply with
  | some e => ⟨s, [], [UMSignal.userRemoveFailed row (getErrorType e)]⟩
  | none => ⟨s, [], []⟩

/-- The events whose handlers mutate the row sequence or the index. -/
inductive Event where
  | setPlaceholder (value : Bool)
  | createUser
  | addFinished (reply : Except DBusError Nat)
  | userAdded (uid : Nat)
  | userModified (uid : Nat) (newName : String)
  | userRemoved (uid : Nat)
  deriving Repr

/-- State transition of one event. -/
def stepState (os : OsDb) (s : ModelState) : Event → ModelState
  | Event.setPlaceholder v => (UserModel.setPlaceholder s v).state
  | Event.createUser => (UserModel.createUser s).state
  | Event.addFinished r => (UserModel.userAddFinished os s r).state
  | Event.userAdded uid => (UserModel.onUserAdded os s uid).state
  | Event.userModified uid n => (UserModel.onUserModified s uid n).state
  | Event.userRemoved uid => (UserModel.onUserRemoved s uid).state

/-- Run a sequence of events. -/
def run (os : OsDb) (s : ModelState) (evts : List Event) : ModelState :=
  evts.foldl (stepState os) s

/-- Number of invalid rows in the cache. -/
def invalidCount (s : ModelState) : Nat :=
  (s.users.filter (fun u => !u.valid)).length

/-- OS account database for the concrete scenarios: alice has uid 1000, bob
1001 and carol 1002. -/
def osScenario : OsDb := fun uid =>
  if uid = 1000 then some "alice"
  else if uid = 1001 then some "bob"
  else if uid = 1002 then some "carol"
  else none

/-- Scenario start state: two committed users plus a placeholder whose
transient name has been set to carol. -/
def s0Scenario : ModelState :=
  ⟨[⟨1000, "alice", true⟩, ⟨1001, "bob", true⟩, ⟨0, "carol", false⟩],
   [(1000, 0), (1001, 1)]⟩

/-- State where the user-added broadcast for carol has already been applied
while the placeholder is still present: used for the duplicate-reply
scenario. -/
def sBroadcastFirst : ModelState :=
  ⟨[⟨1000, "alice", true⟩, ⟨1002, "carol", true⟩, ⟨0, "x", false⟩],
   [(1000, 0), (1002, 1)]⟩

/-! ### Helper lemmas about the hash and list operations -/

theorem hmLookup_hmInsert (m : UidMap) (k v k' : Nat) :
    hmLookup (hmInsert m k v) k' = if k' = k then some v else hmLookup m k' := by
  unfold hmLookup hmInsert
  by_cases h : k' = k
  · subst h
    simp [List.find?]
  · rw [if_neg h]
    have hne : ((k, v).1 == k') = false := by simp; omega
    simp only [List.find?, hne]
    congr 1
    induction m with
    | nil => rfl
    | cons p t ih =>
      by_cases hp : p.1 = k
      · have h1 : (p.1 != k) = false := by simp [hp]
        have h2 : (p.1 == k') = false := by simp [hp]; omega
        simp [List.filter, List.find?, h1, h2, ih]
      · have h1 : (p.1 != k) = true := by simp [hp]
        simp only [List.filter, h1, List.find?]
        by_cases hk : p.1 = k'
        · simp [hk]
        · have h2 : (p.1 == k') = false := by simp [hk]
          simp [h2, ih]

theorem hmLookup_hmRemove (m : UidMap) (k k' : Nat) :
    hmLookup (hmRemove m k) k' = if k' = k then none else hmLookup m k' := by
  unfold hmLookup hmRemove
  induction m with
  | nil => simp
  | cons p t ih =>
    by_cases hp : p.1 = k
    · have h1 : (p.1 != k) = false := by simp [hp]
      by_cases hk : k' = k
      · simp only [List.filter, h1]
        simp only [hk] at ih ⊢
        simp [ih]
      · have h2 : (p.1 == k') = false := by simp [hp]; omega
        simp only [List.filter, h1, List.find?, h2]
        simpa [hk] using ih
    · have h1 : (p.1 != k) = true := by simp [hp]
      by_cases hk : p.1 = k'
      · have h2 : (p.1 == k') = true := by simp [hk]
        by_cases hkk : k' = k
        · omega
        · simp [List.filter, h1, List.find?, h2, hkk]
      · have h2 : (p.1 == k') = false := by simp [hk]
        simp only [List.filter, h1, List.find?, h2]
        simpa using ih

theorem hmLookup_hmShiftDown (m : UidMap) (row k : Nat) :
    hmLookup (hmShiftDown m row) k =
      (hmLookup m k).map (fun r => if row < r then r - 1 else r) := by
  unfold hmLookup hmShiftDown
  induction m with
  | nil => simp
  | cons p t ih =>
    by_cases hk : p.1 = k
    · have h2 : (p.1 == k) = true := by simp [hk]
      by_cases hr : row < p.2 <;>
        simp [List.find?, h2, hr]
    · have h2 : (p.1 == k) = false := by simp [hk]
      by_cases hr : row < p.2 <;>
        simpa [List.find?, h2, hr] using ih

theorem hmContains_eq_true_iff (m : UidMap) (k : Nat) :
    hmContains m k = true ↔ ∃ r, hmLookup m k = some r := by
  unfold hmContains
  cases h : hmLookup m k <;> simp [h]

theorem hmValue_of_lookup (m : UidMap) (k r : Nat)
    (h : hmLookup m k = some r) : hmValue m k = r := by
  unfold hmValue
  rw [h]
  rfl

theorem getElem?_insertIdx (l : List α) (x : α) (n : Nat) (hn : n ≤ l.length)
    (i : Nat) :
    (l.insertIdx n x)[i]? =
      if i < n then l[i]? else if i = n then some x else l[i - 1]? := by
  induction n generalizing l i with
  | zero =>
    cases i <;> simp [List.insertIdx_zero]
  | succ m ih =>
    cases l with
    | nil => simp at hn
    | cons hd tl =>
      cases i with
      | zero => simp
      | succ j =>
        have hn' : m ≤ tl.length := by simpa using hn
        have := ih tl hn' j
        simp only [List.insertIdx_succ_cons, List.getElem?_cons_succ, this]
        by_cases h1 : j < m
        · simp [h1, Nat.succ_lt_succ h1]
        · by_cases h2 : j = m
          · simp [h1, h2]
          · have h3 : ¬ j + 1 < m + 1 := by omega
            have h4 : ¬ j + 1 = m + 1 := by omega
            have h5 : 1 ≤ j := by omega
            simp only [if_neg h1, if_neg h2, if_neg h3, if_neg h4]
            have h6 : j + 1 - 1 = (j - 1) + 1 := by omega
            rw [h6, List.getElem?_cons_succ]

/-! ### The two cache invariants -/

/-- Row i of the sequence holds a valid record with the given uid. -/
def RowUid (l : List UserInfo) (row uid : Nat) : Prop :=
  ∃ u, l[row]? = some u ∧ u.valid = true ∧ u.uid = uid

/-- The uid-to-row index is exactly the inverse of the row sequence
restricted to valid rows: the index maps uid to row precisely when row holds
a valid record with that uid.  Invalid rows (the placeholder) have no
entry. -/
def IndexInverse (s : ModelState) : Prop :=
  ∀ uid row, hmLookup s.uidsToRows uid = some row ↔ RowUid s.users row uid

/-- At most one invalid record exists and, when present, it is the last
row. -/
def PlaceholderLast (l : List UserInfo) : Prop :=
  ∀ i u, l[i]? = some u → u.valid = false → i + 1 = l.length

theorem UserInfo.ofUid_uid (os : OsDb) (uid : Nat) :
    (UserInfo.ofUid os uid).uid = uid := by
  unfold UserInfo.ofUid
  cases os uid <;> rfl

theorem UserInfo.reset_valid (os : OsDb) (u : UserInfo) :
    (UserInfo.reset os u).valid = u.valid := by
  unfold UserInfo.reset
  by_cases h : u.valid <;> simp [h]

theorem hmLookup_eq_none_of_not_contains (m : UidMap) (k : Nat)
    (h : ¬ hmContains m k = true) : hmLookup m k = none := by
  unfold hmContains at h
  cases hl : hmLookup m k
  · rfl
  · rw [hl] at h
    simp at h

theorem placeholder_eq_true_iff (s : ModelState) :
    UserModel.placeholder s = true ↔
      ∃ u, s.users[s.users.length - 1]? = some u ∧ u.valid = false := by
  unfold UserModel.placeholder
  rw [← List.getLast?_eq_getElem?]
  cases h : s.users.getLast? with
  | none => simp
  | some u => simp

theorem no_invalid_of_placeholder_false (s : ModelState)
    (hpl : PlaceholderLast s.users) (h : ¬ UserModel.placeholder s = true) :
    ∀ (i : Nat) (u : UserInfo), s.users[i]? = some u → u.valid = true := by
  intro i u hu
  by_contra hv
  have hv' : u.valid = false := by
    cases hval : u.valid
    · rfl
    · exact absurd hval hv
  have hlast := hpl i u hu hv'
  apply h
  rw [placeholder_eq_true_iff]
  refine ⟨u, ?_, hv'⟩
  have : i = s.users.length - 1 := by omega
  rw [← this]
  exact hu

theorem rowUid_insertIdx (l : List UserInfo) (user : UserInfo) (row : Nat)
    (hrow : row ≤ l.length) (i uid : Nat) :
    RowUid (l.insertIdx row user) i uid ↔
      (if i < row then RowUid l i uid
       else if i = row then user.valid = true ∧ user.uid = uid
       else RowUid l (i - 1) uid) := by
  unfold RowUid
  rw [getElem?_insertIdx l user row hrow i]
  by_cases h1 : i < row
  · simp [h1]
  · by_cases h2 : i = row
    · simp [h1, h2]
    · simp [h1, h2]

theorem indexInverse_insertIdx (s : ModelState) (user : UserInfo)
    (uid row : Nat) (hrow : row ≤ s.users.length)
    (hvalid : user.valid = true) (huid : user.uid = uid)
    (hfresh : hmLookup s.uidsToRows uid = none)
    (hbefore : ∀ r u, s.users[r]? = some u → u.valid = true → r < row)
    (hinv : IndexInverse s) :
    IndexInverse ⟨s.users.insertIdx row user, hmInsert s.uidsToRows uid row⟩ := by
  intro uid' row'
  simp only
  rw [hmLookup_hmInsert, rowUid_insertIdx _ _ _ hrow]
  by_cases h : uid' = uid
  · subst h
    rw [if_pos rfl]
    constructor
    · intro he
      have hre : row' = row := by
        injection he with he
        omega
      subst hre
      simp [hvalid, huid]
    · intro hr
      by_cases h1 : row' < row
      · rw [if_pos h1] at hr
        have := (hinv uid' row').mpr hr
        rw [hfresh] at this
        cases this
      · by_cases h2 : row' = row
        · rw [h2]
        · rw [if_neg h1, if_neg h2] at hr
          have := (hinv uid' (row' - 1)).mpr hr
          rw [hfresh] at this
          cases this
  · rw [if_neg h, hinv uid' row']
    by_cases h1 : row' < row
    · simp [h1]
    · by_cases h2 : row' = row
      · subst h2
        simp only [if_neg h1, if_pos rfl]
        constructor
        · intro hr
          obtain ⟨u, hu, hv, huu⟩ := hr
          have := hbefore _ _ hu hv
          omega
        · rintro ⟨hv, huu⟩
          exact absurd (huid.symm.trans huu).symm h
      · simp only [if_neg h1, if_neg h2]
        constructor
        · intro hr
          obtain ⟨u, hu, hv, huu⟩ := hr
          have := hbefore _ _ hu hv
          omega
        · intro hr
          obtain ⟨u, hu, hv, huu⟩ := hr
          have := hbefore _ _ hu hv
          omega

theorem placeholderLast_set (l : List UserInfo) (i : Nat) (u' : UserInfo)
    (hsame : ∀ u : UserInfo, l[i]? = some u → u'.valid = u.valid)
    (hpl : PlaceholderLast l) : PlaceholderLast (l.set i u') := by
  intro j u hj hv
  rw [List.length_set]
  rw [List.getElem?_set] at hj
  by_cases hij : i = j
  · rw [if_pos hij] at hj
    by_cases hlen : i < l.length
    · rw [if_pos hlen] at hj
      injection hj with hj
      subst hj
      obtain ⟨w, hw⟩ := List.getElem?_eq_some.mp (List.getElem?_eq_getElem hlen)
      have hwu : l[i]? = some l[i] := List.getElem?_eq_getElem hlen
      have := hsame l[i] hwu
      rw [this] at hv
      have := hpl i l[i] hwu hv
      omega
    · rw [if_neg hlen] at hj
      cases hj
  · rw [if_neg hij] at hj
    exact hpl j u hj hv

theorem placeholderLast_insertIdx (l : List UserInfo) (user : UserInfo)
    (row : Nat) (hrow : row ≤ l.length) (hvalid : user.valid = true)
    (hafter : ∀ (i : Nat) (u : UserInfo), l[i]? = some u → u.valid = false → row ≤ i)
    (hpl : PlaceholderLast l) : PlaceholderLast (l.insertIdx row user) := by
  intro i u hu hv
  have hlen : (l.insertIdx row user).length = l.length + 1 :=
    List.length_insertIdx row l hrow
  rw [getElem?_insertIdx l user row hrow i] at hu
  by_cases h1 : i < row
  · rw [if_pos h1] at hu
    have := hafter i u hu hv
    omega
  · by_cases h2 : i = row
    · rw [if_neg h1, if_pos h2] at hu
      injection hu with hu
      subst hu
      rw [hvalid] at hv
      cases hv
    · rw [if_neg h1, if_neg h2] at hu
      have h3 := hpl (i - 1) u hu hv
      omega

theorem placeholderLast_eraseIdx (l : List UserInfo) (row : Nat)
    (hpl : PlaceholderLast l) : PlaceholderLast (l.eraseIdx row) := by
  by_cases hr : row < l.length
  · intro i u hu hv
    rw [List.getElem?_eraseIdx] at hu
    have hlen : (l.eraseIdx row).length = l.length - 1 := by
      rw [List.length_eraseIdx]
      simp [hr]
    by_cases h1 : i < row
    · rw [if_pos h1] at hu
      have := hpl i u hu hv
      omega
    · rw [if_neg h1] at hu
      have := hpl (i + 1) u hu hv
      omega
  · rw [List.eraseIdx_of_length_le (Nat.le_of_not_lt hr)]
    exact hpl

theorem placeholderLast_append_one (l : List UserInfo)
    (hvalid : ∀ (i : Nat) (u : UserInfo), l[i]? = some u → u.valid = true)
    (ph : UserInfo) : PlaceholderLast (l ++ [ph]) := by
  intro i u hu hv
  rw [List.length_append]
  by_cases h1 : i < l.length
  · rw [List.getElem?_append_left h1] at hu
    have := hvalid i u hu
    rw [this] at hv
    cases hv
  · rw [List.getElem?_append_right (Nat.le_of_not_lt h1)] at hu
    have h2 : i - l.length < 1 := by
      by_contra h3
      have hnone : ([ph] : List UserInfo)[i - l.length]? = none := by
        apply List.getElem?_eq_none
        have hlen1 : ([ph] : List UserInfo).length = 1 := rfl
        omega
      rw [hnone] at hu
      cases hu
    have hlen1 : ([ph] : List UserInfo).length = 1 := rfl
    omega

theorem placeholderLast_dropLast (l : List UserInfo)
    (hpl : PlaceholderLast l) : PlaceholderLast l.dropLast := by
  intro i u hu hv
  rw [List.getElem?_dropLast] at hu
  by_cases h1 : i < l.length - 1
  · rw [if_pos h1] at hu
    have := hpl i u hu hv
    omega
  · rw [if_neg h1] at hu
    cases hu

theorem lt_length_of_getElem?_some {l : List UserInfo} {i : Nat} {u : UserInfo}
    (h : l[i]? = some u) : i < l.length := by
  by_contra hle
  rw [List.getElem?_eq_none (Nat.le_of_not_lt hle)] at h
  cases h

theorem indexInverse_onUserAdded (os : OsDb) (s : ModelState) (uid : Nat)
    (hinv : IndexInverse s) :
    IndexInverse (UserModel.onUserAdded os s uid).state := by
  unfold UserModel.onUserAdded
  by_cases hc : hmContains s.uidsToRows uid = true
  · rw [if_pos hc]
    exact hinv
  · rw [if_neg hc]
    have hfresh : hmLookup s.uidsToRows uid = none :=
      hmLookup_eq_none_of_not_contains _ _ hc
    by_cases hv : (UserInfo.ofUid os uid).valid = true
    · rw [if_pos hv]
      by_cases hp : UserModel.placeholder s = true
      · simp only [hp, if_true]
        refine indexInverse_insertIdx s _ uid (s.users.length - 1)
          (by omega) hv (UserInfo.ofUid_uid os uid) hfresh ?_ hinv
        obtain ⟨up, hup, hupv⟩ := (placeholder_eq_true_iff s).mp hp
        intro r u hu huv
        have hr : r < s.users.length := lt_length_of_getElem?_some hu
        by_cases hrlast : r = s.users.length - 1
        · rw [hrlast, hup] at hu
          injection hu with hu
          subst hu
          rw [huv] at hupv
          cases hupv
        · omega
      · have hp' : UserModel.placeholder s = false := by
          cases hpv : UserModel.placeholder s
          · rfl
          · exact absurd hpv hp
        simp only [hp', Bool.false_eq_true, if_false]
        refine indexInverse_insertIdx s _ uid s.users.length
          (Nat.le_refl _) hv (UserInfo.ofUid_uid os uid) hfresh ?_ hinv
        intro r u hu huv
        exact lt_length_of_getElem?_some hu
    · rw [if_neg hv]
      exact hinv

theorem indexInverse_onUserRemoved (s : ModelState) (uid : Nat)
    (hinv : IndexInverse s) :
    IndexInverse (UserModel.onUserRemoved s uid).state := by
  unfold UserModel.onUserRemoved
  by_cases hc : hmContains s.uidsToRows uid = true
  case neg =>
    rw [if_neg hc]
    exact hinv
  case pos =>
    rw [if_pos hc]
    obtain ⟨row, hrow⟩ := (hmContains_eq_true_iff _ _).mp hc
    have hval : hmValue s.uidsToRows uid = row := hmValue_of_lookup _ _ _ hrow
    obtain ⟨u0, hu0, hu0v, hu0uid⟩ := (hinv uid row).mp hrow
    intro uid' row'
    simp only [hval]
    rw [hmLookup_hmShiftDown, hmLookup_hmRemove]
    by_cases h : uid' = uid
    · subst h
      rw [if_pos rfl]
      simp only [Option.map_none']
      constructor
      · intro hx
        cases hx
      · intro hr
        obtain ⟨u, hu, hv, huu⟩ := hr
        rw [List.getElem?_eraseIdx] at hu
        by_cases h1 : row' < row
        · rw [if_pos h1] at hu
          have := (hinv uid' row').mpr ⟨u, hu, hv, huu⟩
          rw [hrow] at this
          injection this with this
          omega
        · rw [if_neg h1] at hu
          have := (hinv uid' (row' + 1)).mpr ⟨u, hu, hv, huu⟩
          rw [hrow] at this
          injection this with this
          omega
    · rw [if_neg h]
      cases hl : hmLookup s.uidsToRows uid' with
      | none =>
        simp only [Option.map_none']
        constructor
        · intro hx
          cases hx
        · intro hr
          obtain ⟨u, hu, hv, huu⟩ := hr
          rw [List.getElem?_eraseIdx] at hu
          by_cases h1 : row' < row
          · rw [if_pos h1] at hu
            have := (hinv uid' row').mpr ⟨u, hu, hv, huu⟩
            rw [hl] at this
            cases this
          · rw [if_neg h1] at hu
            have := (hinv uid' (row' + 1)).mpr ⟨u, hu, hv, huu⟩
            rw [hl] at this
            cases this
      | some r =>
        obtain ⟨u1, hu1, hu1v, hu1uid⟩ := (hinv uid' r).mp hl
        have hrne : r ≠ row := by
          intro he
          subst he
          rw [hu1] at hu0
          injection hu0 with hu0
          subst hu0
          exact h (hu1uid ▸ hu0uid ▸ rfl)
        simp only [Option.map_some']
        constructor
        · intro hx
          injection hx with hx
          subst hx
          by_cases h1 : row < r
          · rw [if_pos h1]
            refine ⟨u1, ?_, hu1v, hu1uid⟩
            rw [List.getElem?_eraseIdx]
            rw [if_neg (by omega)]
            have : r - 1 + 1 = r := by omega
            rw [this]
            exact hu1
          · rw [if_neg h1]
            refine ⟨u1, ?_, hu1v, hu1uid⟩
            rw [List.getElem?_eraseIdx]
            rw [if_pos (by omega)]
            exact hu1
        · intro hr
          obtain ⟨u, hu, hv, huu⟩ := hr
          rw [List.getElem?_eraseIdx] at hu
          by_cases h1 : row' < row
          · rw [if_pos h1] at hu
            have := (hinv uid' row').mpr ⟨u, hu, hv, huu⟩
            rw [hl] at this
            injection this with this
            subst this
            rw [if_neg (by omega)]
          · rw [if_neg h1] at hu
            have hinj := (hinv uid' (row' + 1)).mpr ⟨u, hu, hv, huu⟩
            rw [hl] at hinj
            injection hinj with hinj
            have hlt : row < r := by omega
            rw [if_pos hlt]
            have hre : r - 1 = row' := by omega
            rw [hre]

theorem UserInfo.ofUid_valid_of_isSome (os : OsDb) (uid : Nat)
    (h : (os uid).isSome = true) : (UserInfo.ofUid os uid).valid = true := by
  obtain ⟨n, hn⟩ := Option.isSome_iff_exists.mp h
  unfold UserInfo.ofUid
  rw [hn]

theorem createUser_state (s : ModelState) :
    (UserModel.createUser s).state = s := by
  unfold UserModel.createUser
  split
  · rfl
  · split
    · rfl
    · split <;> rfl

theorem placeholderLast_reset (os : OsDb) (s : ModelState) (row : Int)
    (hpl : PlaceholderLast s.users) :
    PlaceholderLast (UserModel.reset os s row).state.users := by
  unfold UserModel.reset
  split
  · exact hpl
  · split
    · exact hpl
    · rename_i u0 heq
      apply placeholderLast_set _ _ _ ?_ hpl
      intro u hu
      rw [heq] at hu
      injection hu with hu
      subst hu
      exact UserInfo.reset_valid os _

theorem placeholderLast_stepState (os : OsDb) (s : ModelState) (e : Event)
    (hok : ∀ uid : Nat, e = Event.addFinished (Except.ok uid) →
      (os uid).isSome = true)
    (hpl : PlaceholderLast s.users) :
    PlaceholderLast (stepState os s e).users := by
  cases e with
  | setPlaceholder v =>
    show PlaceholderLast (UserModel.setPlaceholder s v).state.users
    unfold UserModel.setPlaceholder
    by_cases h1 : UserModel.placeholder s = v
    · rw [if_pos h1]
      exact hpl
    · rw [if_neg h1]
      by_cases h2 : v = true
      · rw [if_pos h2]
        apply placeholderLast_append_one
        apply no_invalid_of_placeholder_false s hpl
        subst h2
        exact h1
      · rw [if_neg h2]
        exact placeholderLast_dropLast _ hpl
  | createUser =>
    show PlaceholderLast (UserModel.createUser s).state.users
    rw [createUser_state]
    exact hpl
  | addFinished r =>
    cases r with
    | error e =>
      exact hpl
    | ok uid =>
      show PlaceholderLast
        (UserModel.userAddFinished os s (Except.ok uid)).state.users
      unfold UserModel.userAddFinished
      simp only []
      by_cases hc : hmContains s.uidsToRows uid = true
      · rw [if_pos hc]
        exact placeholderLast_reset os s _ hpl
      · rw [if_neg hc]
        apply placeholderLast_reset
        apply placeholderLast_insertIdx _ _ _ (by omega)
          (UserInfo.ofUid_valid_of_isSome os uid (hok uid rfl)) ?_ hpl
        intro i u hu huv
        have := hpl i u hu huv
        omega
  | userAdded uid =>
    show PlaceholderLast (UserModel.onUserAdded os s uid).state.users
    unfold UserModel.onUserAdded
    by_cases hc : hmContains s.uidsToRows uid = true
    · rw [if_pos hc]
      exact hpl
    · rw [if_neg hc]
      by_cases hv : (UserInfo.ofUid os uid).valid = true
      · rw [if_pos hv]
        by_cases hp : UserModel.placeholder s = true
        · simp only [hp, if_true]
          apply placeholderLast_insertIdx _ _ _ (by omega) hv ?_ hpl
          intro i u hu huv
          have := hpl i u hu huv
          omega
        · have hp' : UserModel.placeholder s = false := by
            cases hpv : UserModel.placeholder s
            · rfl
            · exact absurd hpv hp
          simp only [hp', Bool.false_eq_true, if_false]
          apply placeholderLast_insertIdx _ _ _ (Nat.le_refl _) hv ?_ hpl
          intro i u hu huv
          have := no_invalid_of_placeholder_false s hpl hp i u hu
          rw [this] at huv
          cases huv
      · rw [if_neg hv]
        exact hpl
  | userModified uid newName =>
    show PlaceholderLast (UserModel.onUserModified s uid newName).state.users
    unfold UserModel.onUserModified
    by_cases hc : hmContains s.uidsToRows uid = true
    · rw [if_pos hc]
      cases heq : s.users[hmValue s.uidsToRows uid]? with
      | none => exact hpl
      | some user =>
        simp only []
        by_cases hn : user.name ≠ newName
        · rw [if_pos hn]
          apply placeholderLast_set _ _ _ ?_ hpl
          intro u hu
          rw [heq] at hu
          injection hu with hu
          subst hu
          rfl
        · rw [if_neg hn]
          exact hpl
    · rw [if_neg hc]
      exact hpl
  | userRemoved uid =>
    show PlaceholderLast (UserModel.onUserRemoved s uid).state.users
    unfold UserModel.onUserRemoved
    by_cases hc : hmContains s.uidsToRows uid = true
    · rw [if_pos hc]
      exact placeholderLast_eraseIdx _ _ hpl
    · rw [if_neg hc]
      exact hpl

theorem indexInverse_run (os : OsDb) (evts : List Event) :
    (∀ e ∈ evts,
      (∃ uid, e = Event.userAdded uid) ∨ ∃ uid, e = Event.userRemoved uid) →
    ∀ s : ModelState, IndexInverse s → IndexInverse (run os s evts) := by
  induction evts with
  | nil =>
    intro _ s hinv
    exact hinv
  | cons e t ih =>
    intro hb s hinv
    have he := hb e (List.mem_cons_self e t)
    have ht : ∀ x ∈ t,
        (∃ uid, x = Event.userAdded uid) ∨ ∃ uid, x = Event.userRemoved uid :=
      fun x hx => hb x (List.mem_cons_of_mem e hx)
    have hstep : IndexInverse (stepState os s e) := by
      rcases he with ⟨uid, rfl⟩ | ⟨uid, rfl⟩
      · exact indexInverse_onUserAdded os s uid hinv
      · exact indexInverse_onUserRemoved s uid hinv
    exact ih ht (stepState os s e) hstep

theorem placeholderLast_run (os : OsDb) (evts : List Event) :
    (∀ uid : Nat, Event.addFinished (Except.ok uid) ∈ evts →
      (os uid).isSome = true) →
    ∀ s : ModelState, PlaceholderLast s.users →
      PlaceholderLast (run os s evts).users := by
  induction evts with
  | nil =>
    intro _ s hpl
    exact hpl
  | cons e t ih =>
    intro hok s hpl
    have h1 : PlaceholderLast (stepState os s e).users := by
      apply placeholderLast_stepState os s e ?_ hpl
      intro uid he
      apply hok uid
      rw [← he]
      exact List.mem_cons_self e t
    exact ih (fun uid hm => hok uid (List.mem_cons_of_mem e hm))
      (stepState os s e) h1

/-- Claim C1: starting from a cache whose uid-to-row index is exactly the
inverse of its row sequence restricted to valid rows, after every prefix of
any sequence of user-added and user-removed broadcasts the index is again
exactly that inverse (the placeholder never has an entry); moreover the
user-removed handler recomputes the index by dropping the removed uid and
decrementing by one every index value greater than the removed row. -/
theorem claim_C1_index_inverse_under_broadcasts (os : OsDb) (s : ModelState)
    (evts : List Event) (hinv : IndexInverse s)
    (hb : ∀ e ∈ evts,
      (∃ uid, e = Event.userAdded uid) ∨ ∃ uid, e = Event.userRemoved uid) :
    (∀ pre suf, evts = pre ++ suf → IndexInverse (run os s pre)) ∧
    ∀ uid, hmContains s.uidsToRows uid = true →
      (UserModel.onUserRemoved s uid).state.uidsToRows =
        hmShiftDown (hmRemove s.uidsToRows uid) (hmValue s.uidsToRows uid) := by
  constructor
  · intro pre suf heq
    subst heq
    apply indexInverse_run os pre ?_ s hinv
    intro e he
    exact hb e (List.mem_append_left _ he)
  · intro uid hc
    unfold UserModel.onUserRemoved
    rw [if_pos hc]

theorem claim_C1_witness :
    IndexInverse (run osScenario ⟨[], []⟩
      [Event.userAdded 1000, Event.userRemoved 1000]) := by
  have h := claim_C1_index_inverse_under_broadcasts osScenario ⟨[], []⟩
    [Event.userAdded 1000, Event.userRemoved 1000]
    (by
      intro uid row
      simp [hmLookup, RowUid])
    (by
      intro e he
      rcases List.mem_cons.mp he with rfl | he2
      · exact Or.inl ⟨1000, rfl⟩
      · rcases List.mem_cons.mp he2 with rfl | he3
        · exact Or.inr ⟨1000, rfl⟩
        · cases he3)
  exact h.1 [Event.userAdded 1000, Event.userRemoved 1000] [] (by simp)

/-- Claim C8: delivering the same user-removed broadcast twice yields the
same cache state as delivering it once; after the first delivery the uid is
no longer tracked, so the second delivery is a no-op. -/
theorem claim_C8_userRemoved_idempotent (s : ModelState) (uid : Nat) :
    (UserModel.onUserRemoved (UserModel.onUserRemoved s uid).state uid).state =
      (UserModel.onUserRemoved s uid).state := by
  have key : ∀ t : ModelState, hmContains t.uidsToRows uid = false →
      (UserModel.onUserRemoved t uid).state = t := by
    intro t ht
    unfold UserModel.onUserRemoved
    rw [ht]
    rw [if_neg (by simp)]
  by_cases hc : hmContains s.uidsToRows uid = true
  · apply key
    have hs1 : (UserModel.onUserRemoved s uid).state =
        ⟨s.users.eraseIdx (hmValue s.uidsToRows uid),
         hmShiftDown (hmRemove s.uidsToRows uid) (hmValue s.uidsToRows uid)⟩ := by
      unfold UserModel.onUserRemoved
      rw [if_pos hc]
    rw [hs1]
    unfold hmContains
    rw [hmLookup_hmShiftDown, hmLookup_hmRemove, if_pos rfl]
    rfl
  · have hc' : hmContains s.uidsToRows uid = false := by
      cases h : hmContains s.uidsToRows uid
      · rfl
      · exact absurd h hc
    rw [key s hc']
    exact key s hc'

/-- Claim C2: starting from a cache in which at most one invalid row exists
and any invalid row is last, every sequence of setPlaceholder toggles,
createUser requests, add-user completions whose successful uids resolve in
the OS database, and broadcast handlers preserves that invariant at every
prefix; moreover a user-added broadcast for a fresh, valid uid inserts the
new row immediately before a trailing placeholder. -/
theorem claim_C2_placeholder_at_most_one_and_last (os : OsDb)
    (s : ModelState) (evts : List Event)
    (hpl : PlaceholderLast s.users)
    (hok : ∀ uid : Nat, Event.addFinished (Except.ok uid) ∈ evts →
      (os uid).isSome = true) :
    (∀ pre suf, evts = pre ++ suf → PlaceholderLast (run os s pre).users) ∧
    ∀ uid : Nat, hmContains s.uidsToRows uid = false →
      (UserInfo.ofUid os uid).valid = true →
      UserModel.placeholder s = true →
      (UserModel.onUserAdded os s uid).state.users =
        s.users.insertIdx (s.users.length - 1) (UserInfo.ofUid os uid) := by
  constructor
  · intro pre suf heq
    subst heq
    apply placeholderLast_run os pre ?_ s hpl
    intro uid hm
    exact hok uid (List.mem_append_left _ hm)
  · intro uid hc hv hp
    unfold UserModel.onUserAdded
    rw [if_neg (by rw [hc]; simp)]
    rw [if_pos hv]
    simp only [hp, if_true]

theorem claim_C2_witness :
    PlaceholderLast (run osScenario ⟨[], []⟩
      [Event.setPlaceholder true, Event.addFinished (Except.ok 1002),
       Event.userRemoved 1002]).users := by
  have h := claim_C2_placeholder_at_most_one_and_last osScenario ⟨[], []⟩
    [Event.setPlaceholder true, Event.addFinished (Except.ok 1002),
     Event.userRemoved 1002]
    (by
      intro i u hu hv
      simp at hu)
    (by
      intro uid hm
      simp at hm
      subst hm
      rfl)
  exact h.1 _ [] (by simp)

/-- Claim C3 as stated is false on the code: starting from two committed
users plus a placeholder named carol, createUser followed by a successful
add-user reply with fresh uid 1002 leaves 4 rows and one invalid row, not 3
rows and zero invalid rows. -/
theorem claim_C3_counterexample :
    ¬ ((run osScenario s0Scenario
          [Event.createUser, Event.addFinished (Except.ok 1002)]).users.length
            = 3 ∧
       invalidCount (run osScenario s0Scenario
          [Event.createUser, Event.addFinished (Except.ok 1002)]) = 0) := by
  decide

/-- Claim C3 amended: the commit path nets out to 4 rows: the two original
users, the new committed user inserted at position 2 just before the
placeholder, and the placeholder still present as the last row with its
transient name reset to empty; the index gains uid 1002 at row 2. -/
theorem claim_C3_commit_keeps_trailing_placeholder :
    run osScenario s0Scenario
        [Event.createUser, Event.addFinished (Except.ok 1002)] =
      ⟨[⟨1000, "alice", true⟩, ⟨1001, "bob", true⟩, ⟨1002, "carol", true⟩,
        ⟨0, "", false⟩],
       [(1002, 2), (1000, 0), (1001, 1)]⟩ := by
  decide

theorem reset_state_eq (os : OsDb) (s : ModelState) (row : Nat)
    (u : UserInfo) (hu : s.users[row]? = some u) :
    UserModel.reset os s (row : Int) =
      ⟨{ s with users := s.users.set row (UserInfo.reset os u) }, [],
        [UMSignal.dataChanged row []]⟩ := by
  have hlt : row < s.users.length := lt_length_of_getElem?_some hu
  unfold UserModel.reset
  rw [if_neg (by push_neg; exact ⟨by omega, by omega⟩)]
  rw [Int.toNat_natCast, hu]

/-- Claim C4: when the uid of a successful add-user reply is already tracked
because the user-added broadcast arrived first, the reply inserts nothing:
the uid-to-row index and the row count are unchanged, while the last row
(the trailing placeholder) still has its transient name reset to empty. -/
theorem claim_C4_duplicate_insert_skipped (os : OsDb) (s : ModelState)
    (uid : Nat) (u : UserInfo) (hc : hmContains s.uidsToRows uid = true)
    (hlast : s.users.getLast? = some u) (hinvalid : u.valid = false) :
    (UserModel.userAddFinished os s (Except.ok uid)).state.uidsToRows =
        s.uidsToRows ∧
    (UserModel.userAddFinished os s (Except.ok uid)).state.users.length =
        s.users.length ∧
    (UserModel.userAddFinished os s (Except.ok uid)).state.users.getLast? =
        some { u with name := "" } := by
  have hu : s.users[s.users.length - 1]? = some u := by
    rw [← List.getLast?_eq_getElem?]
    exact hlast
  have hlen : 1 ≤ s.users.length := by
    have hne : s.users ≠ [] := by
      intro he
      rw [he] at hlast
      cases hlast
    have := List.length_pos.mpr hne
    omega
  have hstate : (UserModel.userAddFinished os s (Except.ok uid)).state =
      { s with
        users := s.users.set (s.users.length - 1) (UserInfo.reset os u) } := by
    unfold UserModel.userAddFinished
    simp only []
    rw [if_pos hc]
    have hcast : (s.users.length : Int) - 1 =
        ((s.users.length - 1 : Nat) : Int) := by
      omega
    rw [hcast, reset_state_eq os s (s.users.length - 1) u hu]
  refine ⟨?_, ?_, ?_⟩
  · rw [hstate]
  · rw [hstate]
    simp [List.length_set]
  · rw [hstate]
    simp only
    rw [List.getLast?_eq_getElem?]
    simp only [List.length_set]
    rw [List.getElem?_set_self (by omega)]
    unfold UserInfo.reset
    rw [hinvalid]
    rw [if_neg (by simp)]

theorem claim_C4_witness :
    (UserModel.userAddFinished osScenario sBroadcastFirst
        (Except.ok 1002)).state.uidsToRows = sBroadcastFirst.uidsToRows ∧
    (UserModel.userAddFinished osScenario sBroadcastFirst
        (Except.ok 1002)).state.users.getLast? = some ⟨0, "", false⟩ := by
  have h := claim_C4_duplicate_insert_skipped osScenario sBroadcastFirst 1002
    ⟨0, "x", false⟩ (by decide) (by decide) rfl
  exact ⟨h.1, h.2.2⟩

/-- Claim C5: for an in-range row, setData on the name role with the row's
current name or with the empty string returns false, issues no remote
command, leaves every row unchanged and emits no notification. -/
theorem claim_C5_rename_to_same_or_empty_noop (s : ModelState) (row : Nat)
    (u : UserInfo) (value : String) (hu : s.users[row]? = some u)
    (hv : value = u.name ∨ value = "") :
    UserModel.setData s (row : Int) 0 value Role.name =
      ⟨false, s, [], []⟩ := by
  have hlt : row < s.users.length := lt_length_of_getElem?_some hu
  unfold UserModel.setData
  rw [if_neg (by push_neg; exact ⟨by omega, by omega, rfl⟩)]
  rw [Int.toNat_natCast, hu]
  simp only []
  rw [if_pos (by
    rcases hv with h | h
    · exact Or.inr h
    · exact Or.inl h)]

theorem claim_C5_witness :
    UserModel.setData s0Scenario 0 0 "alice" Role.name =
      ⟨false, s0Scenario, [], []⟩ :=
  claim_C5_rename_to_same_or_empty_noop s0Scenario 0 ⟨1000, "alice", true⟩
    "alice" (by decide) (Or.inl rfl)

/-- Claim C7: removeUser on a valid in-range row issues remove-user(uid) and
never removes the row locally; a successful completion changes nothing, and
an error completion leaves the state unchanged and emits a row-scoped typed
failure with the classified error. -/
theorem claim_C7_remove_waits_for_broadcast (s : ModelState) (row : Nat)
    (u : UserInfo) (hu : s.users[row]? = some u) (hvalid : u.valid = true) :
    UserModel.removeUser s (row : Int) =
      ⟨s, [RemoteCommand.removeUser u.uid], []⟩ ∧
    UserModel.userRemoveFinished s none (row : Int) = ⟨s, [], []⟩ ∧
    ∀ e : DBusError, UserModel.userRemoveFinished s (some e) (row : Int) =
      ⟨s, [], [UMSignal.userRemoveFailed (row : Int) (getErrorType e)]⟩ := by
  refine ⟨?_, rfl, fun e => rfl⟩
  have hlt : row < s.users.length := lt_length_of_getElem?_some hu
  unfold UserModel.removeUser
  rw [if_neg (by push_neg; exact ⟨by omega, by omega⟩)]
  rw [Int.toNat_natCast, hu]
  simp only []
  rw [if_neg (by rw [hvalid]; simp)]

theorem claim_C7_witness :
    UserModel.removeUser s0Scenario 0 =
      ⟨s0Scenario, [RemoteCommand.removeUser 1000], []⟩ ∧
    UserModel.userRemoveFinished s0Scenario
        (some ⟨QDBusErrorType.Other,
          "SailfishUserManagerErrorUserRemoveFailed"⟩) 0 =
      ⟨s0Scenario, [],
        [UMSignal.userRemoveFailed 0
          (ErrorCode.model UserModelError.UserRemoveFailed)]⟩ := by
  have h := claim_C7_remove_waits_for_broadcast s0Scenario 0
    ⟨1000, "alice", true⟩ (by decide) rfl
  refine ⟨h.1, ?_⟩
  have h2 := h.2.2
    ⟨QDBusErrorType.Other, "SailfishUserManagerErrorUserRemoveFailed"⟩
  exact h2.trans (by decide)

/-- Claim C6: setData on the name role of a valid in-range row with a
non-empty, different name applies the rename to the local record and emits
the change notification in the same synchronous step that issues
modifyUser(uid, name), before any reply; an error reply restores the row
from the OS identity lookup and emits a row-scoped userModifyFailed with the
classified error; a success reply changes nothing. -/
theorem claim_C6_optimistic_rename (os : OsDb) (s : ModelState) (row : Nat)
    (u : UserInfo) (value origName : String)
    (hu : s.users[row]? = some u) (hvalid : u.valid = true)
    (hne : value ≠ "") (hdiff : value ≠ u.name)
    (hos : os u.uid = some origName) :
    UserModel.setData s (row : Int) 0 value Role.name =
      ⟨true, { s with users := s.users.set row (u.setName value) },
        [RemoteCommand.modifyUser u.uid value],
        [UMSignal.dataChanged row [Role.name]]⟩ ∧
    (UserModel.setData s (row : Int) 0 value Role.name).state.users[row]? =
      some (u.setName value) ∧
    (∀ e : DBusError,
      (UserModel.userModifyFinished os
          (UserModel.setData s (row : Int) 0 value Role.name).state
          (some e) (row : Int)).state.users[row]? =
        some { u with name := origName } ∧
      (UserModel.userModifyFinished os
          (UserModel.setData s (row : Int) 0 value Role.name).state
          (some e) (row : Int)).sigs.head? =
        some (UMSignal.userModifyFailed (row : Int) (getErrorType e))) ∧
    UserModel.userModifyFinished os
        (UserModel.setData s (row : Int) 0 value Role.name).state
        none (row : Int) =
      ⟨(UserModel.setData s (row : Int) 0 value Role.name).state, [], []⟩ := by
  have hlt : row < s.users.length := lt_length_of_getElem?_some hu
  have hsd : UserModel.setData s (row : Int) 0 value Role.name =
      ⟨true, { s with users := s.users.set row (u.setName value) },
        [RemoteCommand.modifyUser u.uid value],
        [UMSignal.dataChanged row [Role.name]]⟩ := by
    unfold UserModel.setData
    rw [if_neg (by push_neg; exact ⟨by omega, by omega, rfl⟩)]
    rw [Int.toNat_natCast, hu]
    simp only []
    rw [if_neg (by push_neg; exact ⟨hne, hdiff⟩)]
    rw [if_pos hvalid]
  have hs2 : (UserModel.setData s (row : Int) 0 value Role.name).state =
      { s with users := s.users.set row (u.setName value) } := by
    rw [hsd]
  have hu2 : (s.users.set row (u.setName value))[row]? =
      some (u.setName value) :=
    List.getElem?_set_self hlt
  have hreset : UserInfo.reset os (u.setName value) =
      { u with name := origName } := by
    unfold UserInfo.reset UserInfo.setName
    simp [hvalid, hos]
  have hrs := reset_state_eq os
    { s with users := s.users.set row (u.setName value) } row
    (u.setName value) hu2
  refine ⟨hsd, ?_, ?_, ?_⟩
  · rw [hs2]
    exact hu2
  · intro e
    constructor
    · rw [hs2]
      unfold UserModel.userModifyFinished
      simp only []
      rw [hrs]
      simp only
      rw [List.getElem?_set_self (by rw [List.length_set]; exact hlt)]
      rw [hreset]
    · rw [hs2]
      unfold UserModel.userModifyFinished
      simp only []
      rfl
  · rw [hs2]
    rfl

theorem claim_C6_witness :
    (UserModel.setData s0Scenario 0 0 "alicia" Role.name).state.users[0]? =
      some ⟨1000, "alicia", true⟩ ∧
    (UserModel.userModifyFinished osScenario
        (UserModel.setData s0Scenario 0 0 "alicia" Role.name).state
        (some ⟨QDBusErrorType.Other,
          "SailfishUserManagerErrorUserModifyFailed"⟩)
        0).state.users[0]? = some ⟨1000, "alice", true⟩ := by
  have h := claim_C6_optimistic_rename osScenario s0Scenario 0
    ⟨1000, "alice", true⟩ "alicia" "alice" (by decide) rfl (by decide)
    (by decide) (by decide)
  exact ⟨h.2.1, (h.2.2.1 ⟨QDBusErrorType.Other,
    "SailfishUserManagerErrorUserModifyFailed"⟩).1⟩

/-- Claim C9: the error classifier passes every error whose transport type
is not Other through as its native transport code, maps an Other-typed error
whose name is registered in errorTypeMap to the registered taxonomy value,
and maps an Other-typed error with any unregistered name to OtherError. -/
theorem claim_C9_error_classifier :
    (∀ e : DBusError, e.type ≠ QDBusErrorType.Other →
      getErrorType e = ErrorCode.transport e.type) ∧
    (∀ (name : String) (mapped : UserModelError),
      (name, mapped) ∈ errorTypeMap →
      getErrorType ⟨QDBusErrorType.Other, name⟩ = ErrorCode.model mapped) ∧
    (∀ name : String, (∀ p ∈ errorTypeMap, p.1 ≠ name) →
      getErrorType ⟨QDBusErrorType.Other, name⟩ =
        ErrorCode.model UserModelError.OtherError) := by
  refine ⟨?_, ?_, ?_⟩
  · intro e he
    unfold getErrorType
    rw [if_pos he]
  · intro name mapped hm
    fin_cases hm <;> rfl
  · intro name hname
    unfold getErrorType
    rw [if_neg (by simp)]
    have hfind : errorTypeMap.find? (fun p => p.1 == name) = none := by
      rw [List.find?_eq_none]
      intro x hx
      simp only [beq_iff_eq]
      exact hname x hx
    rw [hfind]
    rfl

theorem claim_C9_witness :
    getErrorType ⟨QDBusErrorType.Timeout, "whatever"⟩ =
        ErrorCode.transport QDBusErrorType.Timeout ∧
    getErrorType ⟨QDBusErrorType.Other, "SailfishUserManagerErrorBusy"⟩ =
        ErrorCode.model UserModelError.Busy ∧
    getErrorType ⟨QDBusErrorType.Other, "org.example.unknown"⟩ =
        ErrorCode.model UserModelError.OtherError := by
  refine ⟨claim_C9_error_classifier.1 _ (by decide), ?_, ?_⟩
  · exact claim_C9_error_classifier.2.1 "SailfishUserManagerErrorBusy"
      UserModelError.Busy (by decide)
  · exact claim_C9_error_classifier.2.2 "org.example.unknown"
      (by intro p hp; fin_cases hp <;> decide)

/-- Claim C10: setData returns false and has no effect, issues no command
and emits nothing for every role other than the name role, whatever the
value, and likewise for any out-of-range row or non-zero column. -/
theorem claim_C10_setData_frame (s : ModelState) (row col : Int)
    (value : String) (role : Role) :
    (role ≠ Role.name →
      UserModel.setData s row col value role = ⟨false, s, [], []⟩) ∧
    ((row < 0 ∨ (s.users.length : Int) ≤ row ∨ col ≠ 0) →
      UserModel.setData s row col value role = ⟨false, s, [], []⟩) := by
  constructor
  · intro hrole
    unfold UserModel.setData
    by_cases hg : row < 0 ∨ (s.users.length : Int) ≤ row ∨ col ≠ 0
    · rw [if_pos hg]
    · rw [if_neg hg]
      cases hu : s.users[row.toNat]? with
      | none => rfl
      | some user =>
        cases role with
        | name => exact absurd rfl hrole
        | display => rfl
        | username => rfl
        | userType => rfl
        | uid => rfl
        | current => rfl
        | placeholderRole => rfl
        | unknown n => rfl
  · intro hg
    unfold UserModel.setData
    rw [if_pos hg]

theorem claim_C10_witness :
    UserModel.setData s0Scenario 0 0 "zz" Role.uid =
      ⟨false, s0Scenario, [], []⟩ ∧
    UserModel.setData s0Scenario 5 0 "zz" Role.name =
      ⟨false, s0Scenario, [], []⟩ :=
  ⟨(claim_C10_setData_frame s0Scenario 0 0 "zz" Role.uid).1 (by decide),
   (claim_C10_setData_frame s0Scenario 5 0 "zz" Role.name).2 (by decide)⟩
